import Mathlib

/-!
Verification development for the `n8n-nodes-url2markdown` node
(`src/nodes/Url2Markdown/Url2Markdown.node.ts`).

The node's `execute` method runs, per input item: parameter coercion,
URL validation, a fetch with an abort-based timeout, Readability
extraction, Turndown conversion (with user-selected override rules for
links and images), optional YAML frontmatter composition, and result
packaging, with an optional continue-on-fail mode for batches.

The pure string manipulations (option coercion, frontmatter building,
error messages, result records, the batch loop) are translated directly
from the source.  The fetch and the Readability parse are external
effects: they enter the model as oracle parameters of `processItem`.
The Turndown conversion engine is an external dependency (not part of
this repository's sources); it is modelled from the specification's
description of the Markdown Converter (depth-first bottom-up tree walk,
override rules first, default rules per tag, unrecognized elements
degrade to the concatenation of their children's text), with the two
override rules (`removeLinks`, `removeImages` / `imageAltText`)
translated from the source.
-/

namespace UrlToMarkdown

/-! ## Basic string helpers (JavaScript semantics) -/

/-- JavaScript `s.replace(/"/g, '\\"')`: every double quote becomes a
backslash followed by a double quote. -/
def escQuotes (s : String) : String :=
  ⟨s.data.flatMap (fun c => if c = '"' then ['\\', '"'] else [c])⟩

/-- JavaScript `s.replace(/\n/g, ' ')`: every newline becomes one space. -/
def nlToSpace (s : String) : String :=
  ⟨s.data.map (fun c => if c = '\n' then ' ' else c)⟩

/-- The `escapedExcerpt` of the source (line 231): quotes escaped first,
then newlines replaced by spaces. -/
def escapedExcerpt (s : String) : String :=
  nlToSpace (escQuotes s)

/-- Characters trimmed from both ends, JavaScript `String.prototype.trim`. -/
def trimChars (l : List Char) : List Char :=
  ((l.dropWhile Char.isWhitespace).reverse.dropWhile Char.isWhitespace).reverse

/-- JavaScript `s.trim()`. -/
def jsTrim (s : String) : String := ⟨trimChars s.data⟩

/-- JavaScript `Array.prototype.join('\n')`. -/
def joinNL : List String → String
  | [] => ""
  | [x] => x
  | x :: y :: rest => x ++ "\n" ++ joinNL (y :: rest)

/-- First attribute value for a given name, JavaScript `getAttribute`
(null when absent). -/
def getAttr : List (String × String) → String → Option String
  | [], _ => none
  | (k, v) :: rest, key => if k = key then some v else getAttr rest key

/-- `getAttribute(name) ?? ''`, used where Turndown defaults a missing
attribute to the empty string. -/
def getAttrD (attrs : List (String × String)) (key : String) : String :=
  (getAttr attrs key).getD ""

/-! ## Document trees and the conversion configuration -/

mutual
/-- A parsed DOM node: a text leaf, or an element with a tag name,
attributes and an ordered forest of children. -/
inductive DomNode where
  | text (s : String)
  | element (tag : String) (attrs : List (String × String)) (children : DomForest)
/-- An ordered forest of sibling DOM nodes. -/
inductive DomForest where
  | nil
  | cons (head : DomNode) (tail : DomForest)
end

inductive ImageHandling where
  | imageInclude
  | altText
  | remove
deriving DecidableEq

inductive HeadingStyle where
  | atx
  | setext
deriving DecidableEq

inductive CodeStyle where
  | fenced
  | indented
deriving DecidableEq

/-- The conversion configuration handed to the Markdown Converter
(source lines 113-116 and 179-209). -/
structure Config where
  includeLinks : Bool
  imageHandling : ImageHandling
  headingStyle : HeadingStyle
  codeBlockStyle : CodeStyle

mutual
/-- Concatenated raw text of a subtree (DOM `textContent`). -/
def textNode : DomNode → String
  | .text s => s
  | .element _ _ kids => textForest kids
def textForest : DomForest → String
  | .nil => ""
  | .cons n f => textNode n ++ textForest f
end

/-- Heading level of `h1` .. `h6` tags. -/
def headingLevel (tag : String) : Option Nat :=
  if tag = "h1" then some 1
  else if tag = "h2" then some 2
  else if tag = "h3" then some 3
  else if tag = "h4" then some 4
  else if tag = "h5" then some 5
  else if tag = "h6" then some 6
  else none

/-- Modelled from the spec: code-block rendering (spec 4.3), fenced
(triple backticks) or indented (four leading spaces per line), applied
to the block's raw text content. -/
def codeBlockRule (cfg : Config) (textContent : String) : String :=
  if cfg.codeBlockStyle = .fenced then
    "\n\n```\n" ++ textContent ++ "\n```\n\n"
  else
    "\n\n    " ++ ⟨textContent.data.flatMap
      (fun c => if c = '\n' then ['\n', ' ', ' ', ' ', ' '] else [c])⟩ ++ "\n\n"

/-- Modelled from the spec: the default block/inline rules other than
links and images (spec 4.3) as a prefix/suffix pair wrapped around the
already-converted children text; unrecognized elements degrade to the
bare concatenation of their children's text. -/
def sandwichOf (cfg : Config) (tag : String) (content : String) : String × String :=
  match headingLevel tag with
  | some lv =>
    if cfg.headingStyle = .setext ∧ lv ≤ 2 then
      ("\n\n", "\n" ++ (⟨List.replicate content.length (if lv = 1 then '=' else '-')⟩ : String) ++ "\n\n")
    else
      ("\n\n" ++ (⟨List.replicate lv '#'⟩ : String) ++ " ", "\n\n")
  | none =>
    if tag = "p" then ("\n\n", "\n\n")
    else if tag = "br" then ("", "  \n")
    else if tag = "hr" then ("\n\n* * *\n\n", "")
    else if tag = "em" ∨ tag = "i" then ("_", "_")
    else if tag = "strong" ∨ tag = "b" then ("**", "**")
    else if tag = "code" then ("`", "`")
    else if tag = "blockquote" then ("\n\n> ", "\n\n")
    else ("", "")

/-- The `imageAltText` override rule translated from the source
(lines 198-209): a bracketed alt-text placeholder when the `alt`
attribute is truthy and non-whitespace, else the unlabeled placeholder. -/
def imageAltTextRule (attrs : List (String × String)) : String :=
  match getAttr attrs "alt" with
  | some alt =>
    if alt ≠ "" ∧ jsTrim alt ≠ "" then "[画像: " ++ jsTrim alt ++ "]" else "[画像]"
  | none => "[画像]"

/-- Dispatch for one element, override rules first (the source adds
`removeLinks` when `includeLinks` is false, and `removeImages` /
`imageAltText` per `imageHandling`, lines 184-209), then the default
rule table modelled from the spec (link `[text](href)`, image
`![alt](src)`, code blocks, sandwich rules, catch-all concatenation). -/
def elementRule (cfg : Config) (tag : String) (attrs : List (String × String))
    (content : String) (textContent : String) : String :=
  if tag = "a" ∧ cfg.includeLinks = false then content
  else if tag = "img" ∧ cfg.imageHandling = .remove then ""
  else if tag = "img" ∧ cfg.imageHandling = .altText then imageAltTextRule attrs
  else if tag = "a" then "[" ++ content ++ "](" ++ getAttrD attrs "href" ++ ")"
  else if tag = "img" then "![" ++ getAttrD attrs "alt" ++ "](" ++ getAttrD attrs "src" ++ ")"
  else if tag = "pre" then codeBlockRule cfg textContent
  else (sandwichOf cfg tag content).1 ++ content ++ (sandwichOf cfg tag content).2

mutual
/-- Modelled from the spec: the Markdown Converter (spec 4.3, the
Turndown engine, an external dependency): depth-first bottom-up walk,
children converted first and concatenated, then the node's rule applied. -/
def convertNode (cfg : Config) : DomNode → String
  | .text s => s
  | .element tag attrs kids =>
    elementRule cfg tag attrs (convertForest cfg kids) (textForest kids)
def convertForest (cfg : Config) : DomForest → String
  | .nil => ""
  | .cons n f => convertNode cfg n ++ convertForest cfg f
end

/-! ## Frontmatter composition (source lines 213-238) -/

/-- The extracted article record returned by the Readability parse
(an external dependency; shape per spec 3, "Extracted Article"). -/
structure Article where
  title : Option String
  byline : Option String
  excerpt : Option String
  siteName : Option String
  content : DomNode

/-- One optional quoted frontmatter line, emitted only when the field is
truthy (JavaScript `if (article.field)`), with quotes escaped. -/
def fmField (label : String) (v : Option String) : List String :=
  match v with
  | none => []
  | some s => if s = "" then [] else [label ++ ": \"" ++ escQuotes s ++ "\""]

/-- The excerpt line, using the source's `escapedExcerpt`. -/
def fmExcerpt (v : Option String) : List String :=
  match v with
  | none => []
  | some s => if s = "" then [] else ["excerpt: \"" ++ escapedExcerpt s ++ "\""]

/-- The `frontmatterLines` array built by the source (lines 215-236):
opening delimiter, optional title, the resolved URL, optional author,
site and excerpt, the date, closing delimiter, and a final empty entry. -/
def frontmatterLines (art : Article) (finalUrl now : String) : List String :=
  ["---"]
    ++ fmField "title" art.title
    ++ ["url: \"" ++ finalUrl ++ "\""]
    ++ fmField "author" art.byline
    ++ fmField "site" art.siteName
    ++ fmExcerpt art.excerpt
    ++ ["date: \"" ++ now ++ "\""]
    ++ ["---", ""]

/-- `frontmatterLines.join('\n') + markdown` when frontmatter is enabled
(source lines 214-238), else the Markdown body alone. -/
def composeMarkdown (includeFrontmatter : Bool) (art : Article)
    (finalUrl now body : String) : String :=
  if includeFrontmatter then joinNL (frontmatterLines art finalUrl now) ++ body
  else body

/-! ## The per-item pipeline (source lines 108-261) -/

/-- The raw `options` collection as read from the node parameters;
every entry may be absent. -/
structure RawOptions where
  timeout : Option Nat := none
  includeLinks : Option Bool := none
  imageHandling : Option ImageHandling := none
  headingStyle : Option HeadingStyle := none
  codeBlockStyle : Option CodeStyle := none
  includeFrontmatter : Option Bool := none

/-- `(options.timeout as number) || 30` (line 112): absent or zero
(JavaScript falsy) yields 30. -/
def effTimeout (o : RawOptions) : Nat :=
  match o.timeout with
  | some t => if t = 0 then 30 else t
  | none => 30

/-- `options.includeLinks !== false` (line 113). -/
def effIncludeLinks (o : RawOptions) : Bool :=
  decide (o.includeLinks ≠ some false)

/-- `(options.imageHandling as ...) || 'include'` (line 114). -/
def effImageHandling (o : RawOptions) : ImageHandling :=
  o.imageHandling.getD .imageInclude

/-- `(options.headingStyle as ...) || 'atx'` (line 115). -/
def effHeadingStyle (o : RawOptions) : HeadingStyle :=
  o.headingStyle.getD .atx

/-- `(options.codeBlockStyle as ...) || 'fenced'` (line 116). -/
def effCodeStyle (o : RawOptions) : CodeStyle :=
  o.codeBlockStyle.getD .fenced

/-- `options.includeFrontmatter === true` (line 117). -/
def effIncludeFrontmatter (o : RawOptions) : Bool :=
  decide (o.includeFrontmatter = some true)

/-- The conversion configuration the source assembles for Turndown. -/
def effConfig (o : RawOptions) : Config :=
  ⟨effIncludeLinks o, effImageHandling o, effHeadingStyle o, effCodeStyle o⟩

/-- Outcome of the external fetch, an oracle input to the pipeline:
a response (status, status text, body text, final post-redirect URL),
an abort of the in-flight request (the `AbortError` raised when the
timeout fires, carrying the milliseconds actually elapsed), or another
transport-level failure. -/
inductive FetchResult where
  | success (status : Nat) (statusText : String) (body : String) (finalUrl : String)
  | abort (elapsedMs : Nat)
  | failure (msg : String)

/-- The error taxonomy of the pipeline (spec 7); every kind carries the
human-readable message the source puts into the thrown
`NodeOperationError`. -/
inductive PipeError where
  | validation (msg : String)
  | httpStatus (msg : String)
  | timedOut (msg : String)
  | extraction (msg : String)
  | transport (msg : String)
deriving DecidableEq

/-- `error.message`. -/
def PipeError.message : PipeError → String
  | .validation m => m
  | .httpStatus m => m
  | .timedOut m => m
  | .extraction m => m
  | .transport m => m

/-- The success record pushed for one item (source lines 240-250). -/
structure OutItem where
  url : String
  title : Option String
  byline : Option String
  excerpt : Option String
  siteName : Option String
  markdown : String
  contentLength : Nat
deriving DecidableEq

/-- `response.ok`: status in the 200-299 range. -/
def statusOk (status : Nat) : Bool :=
  decide (200 ≤ status ∧ status ≤ 299)

/-- One iteration of the source's item loop (lines 109-250): parameter
coercion, URL validation, fetch with timeout (the fetch and the
Readability parse are oracle parameters; the fetch oracle receives the
effective timeout that governs the abort timer), extraction, conversion,
frontmatter composition and result packaging. -/
def processItem (url : Option String) (opts : RawOptions)
    (fetch : Nat → FetchResult) (parse : String → String → Option Article)
    (now : String) : Except PipeError OutItem :=
  let timeout := effTimeout opts
  match url with
  | none => .error (.validation "URL is required")
  | some u =>
    if u = "" then .error (.validation "URL is required")
    else
      match fetch timeout with
      | .abort _ =>
        .error (.timedOut ("Request timed out after " ++ toString timeout ++ " seconds"))
      | .failure m => .error (.transport m)
      | .success status statusText body finalUrl =>
        if statusOk status = false then
          .error (.httpStatus ("Failed to fetch URL: " ++ toString status ++ " " ++ statusText))
        else
          match parse body finalUrl with
          | none => .error (.extraction "Failed to parse article content from the page")
          | some article =>
            let md := convertNode (effConfig opts) article.content
            let markdown := composeMarkdown (effIncludeFrontmatter opts) article finalUrl now md
            .ok ⟨finalUrl, article.title, article.byline, article.excerpt,
                 article.siteName, markdown, markdown.length⟩

/-- Everything one input item contributes to the loop body. -/
structure ItemInput where
  url : Option String
  opts : RawOptions
  fetch : Nat → FetchResult
  parse : String → String → Option Article
  now : String

/-- The pipeline applied to one input item. -/
def runOne (it : ItemInput) : Except PipeError OutItem :=
  processItem it.url it.opts it.fetch it.parse it.now

/-- One entry of the returned data: a success record, or the
`error`-message record substituted under continue-on-fail
(source lines 251-259). -/
inductive OutJson where
  | ok (r : OutItem)
  | fail (errorMsg : String)
deriving DecidableEq

/-- What one item contributes under continue-on-fail. -/
def itemOutcome (it : ItemInput) : OutJson :=
  match runOne it with
  | .ok r => .ok r
  | .error e => .fail e.message

/-- The item loop of `execute` (lines 108-262): on error, either
substitute the error record and continue (`continueOnFail`), or rethrow,
aborting the whole batch. -/
def runBatch (items : List ItemInput) (continueOnFail : Bool) :
    Except PipeError (List OutJson) :=
  match items with
  | [] => .ok []
  | it :: rest =>
    match runOne it with
    | .ok r => (runBatch rest continueOnFail).map (fun l => .ok r :: l)
    | .error e =>
      if continueOnFail then (runBatch rest continueOnFail).map (fun l => .fail e.message :: l)
      else .error e

/-! ## Predicates used by the conversion claims -/

/-- A character that can play no role in Markdown link or image syntax. -/
def safeChar (c : Char) : Bool :=
  !(c == '[' || c == ']' || c == '(' || c == ')' || c == '!')

/-- Every character of the string is `safeChar`. -/
def safeStr (s : String) : Bool := s.data.all safeChar

mutual
/-- The tree's text leaves and attribute values contain no bracket,
parenthesis or exclamation-mark characters (real Turndown escapes such
characters in text; the model instead restricts the inputs). -/
def safeNode : DomNode → Bool
  | .text s => safeStr s
  | .element _ attrs kids => attrs.all (fun p => safeStr p.2) && safeForest kids
def safeForest : DomForest → Bool
  | .nil => true
  | .cons n f => safeNode n && safeForest f
end

/-- Rewrite the value of one `src` attribute entry. -/
def mapSrcAttrs (g : String → String) : List (String × String) → List (String × String)
  | [] => []
  | (k, v) :: rest => (k, if k = "src" then g v else v) :: mapSrcAttrs g rest

mutual
/-- Rewrite every image element's `src` attribute value throughout a tree
(used to state that the conversion output never depends on `src`). -/
def mapSrcNode (g : String → String) : DomNode → DomNode
  | .text s => .text s
  | .element tag attrs kids =>
    .element tag (if tag = "img" then mapSrcAttrs g attrs else attrs) (mapSrcForest g kids)
def mapSrcForest (g : String → String) : DomForest → DomForest
  | .nil => .nil
  | .cons n f => .cons (mapSrcNode g n) (mapSrcForest g f)
end

/-- The string contains Markdown link syntax: an occurrence of
`[text](href)` whose opening bracket is not the bracket of an image
marker (not immediately preceded by `!`) and whose link text contains
no bracket characters. -/
def hasLinkSyntax (s : List Char) : Prop :=
  ∃ pre t h post,
    s = pre ++ '[' :: (t ++ ']' :: '(' :: (h ++ ')' :: post))
      ∧ '[' ∉ t ∧ ']' ∉ t ∧ pre.getLast? ≠ some '!'

/-- Building blocks of the converter's output when links are disabled:
a run of safe characters, an image marker `![alt](src)`, or an alt-text
placeholder `[label]`. -/
inductive Atom where
  | safe (s : List Char)
  | img (alt src : List Char)
  | alt (label : List Char)

/-- The characters an atom contributes. -/
def Atom.flat : Atom → List Char
  | .safe s => s
  | .img a u => '!' :: '[' :: (a ++ ']' :: '(' :: (u ++ [')']))
  | .alt a => '[' :: (a ++ [']'])

/-- The variable parts of an atom hold only safe characters. -/
def Atom.Wf : Atom → Prop
  | .safe s => ∀ c ∈ s, safeChar c = true
  | .img a u => (∀ c ∈ a, safeChar c = true) ∧ (∀ c ∈ u, safeChar c = true)
  | .alt a => ∀ c ∈ a, safeChar c = true

/-- Concatenation of a list of atoms. -/
def flattenAtoms : List Atom → List Char
  | [] => []
  | a :: l => a.flat ++ flattenAtoms l

/-- The string decomposes into well-formed atoms. -/
def Decomp (s : String) : Prop :=
  ∃ l : List Atom, (∀ a ∈ l, a.Wf) ∧ s.data = flattenAtoms l

/-- No two adjacent newline characters (no blank line anywhere). -/
def noDoubleNl : List Char → Bool
  | [] => true
  | [_] => true
  | a :: b :: rest => !(a == '\n' && b == '\n') && noDoubleNl (b :: rest)

/-! ## Concrete inputs used by witnesses and counterexamples -/

/-- A configuration with links disabled and all other options default. -/
def cfgNoLinks : Config := ⟨false, .imageInclude, .atx, .fenced⟩

/-- A configuration with image removal enabled. -/
def cfgRemoveImages : Config := ⟨true, .remove, .atx, .fenced⟩

/-- A configuration with images replaced by alt text. -/
def cfgAltText : Config := ⟨true, .altText, .atx, .fenced⟩

/-- `<p>Hello <a href="https://x" title="t">world</a><img src="https://i/p.png" alt="pic"></p>` -/
def demoTree : DomNode :=
  .element "p" []
    (.cons (.text "Hello ")
      (.cons (.element "a" [("href", "https://x"), ("title", "t")]
               (.cons (.text "world") .nil))
        (.cons (.element "img" [("src", "https://i/p.png"), ("alt", "pic")] .nil)
          .nil)))

/-- A minimal article with no optional metadata. -/
def artMin : Article := ⟨none, none, none, none, .text "Hi"⟩

/-- An article with every metadata field present. -/
def artFull : Article :=
  ⟨some "A \"quoted\" title", some "Ann Author", some "Line one\nwith a \"q\"",
   some "Example Site", .text "Hi"⟩

/-- A fetch oracle that always reports a 200 response. -/
def fetchOkOracle : Nat → FetchResult :=
  fun _ => .success 200 "OK" "<html><body><p>Hi</p></body></html>" "https://final.example/post"

/-- A fetch oracle whose request is aborted by the timeout timer after
999 ms. -/
def fetchAbortOracle : Nat → FetchResult := fun _ => .abort 999

/-- Attributes of a demo image element. -/
def imgAttrs : List (String × String) := [("src", "https://i/p.png"), ("alt", "pic")]

/-- The fixed article the demo parse oracle extracts. -/
def artT : Article := ⟨some "T", none, none, none, .text "Hi"⟩

/-- Modelled from the spec: the Readability parse (an external
dependency).  Per spec 8, markup with an empty body
(`<html><body></body></html>`) yields no article; this oracle returns
none exactly there and a fixed article elsewhere. -/
def parseOracle : String → String → Option Article :=
  fun html _ =>
    if html = "<html><body></body></html>" then none
    else some artT

/-- A fetch oracle returning markup with an empty body. -/
def fetchEmptyBodyOracle : Nat → FetchResult :=
  fun _ => .success 200 "OK" "<html><body></body></html>" "https://final.example/empty"

/-- Options selecting a 45-second timeout. -/
def opts45 : RawOptions := { timeout := some 45 }

/-- Options with a zero timeout (JavaScript falsy). -/
def optsZero : RawOptions := { timeout := some 0 }

/-- Options enabling frontmatter. -/
def optsFm : RawOptions := { includeFrontmatter := some true }

/-- An input item that succeeds. -/
def itemGood : ItemInput :=
  ⟨some "https://req.example/a", {}, fetchOkOracle, parseOracle, "2026-01-01T00:00:00.000Z"⟩

/-- An input item that fails (its fetch times out). -/
def itemBad : ItemInput :=
  ⟨some "https://req.example/b", opts45, fetchAbortOracle, parseOracle, "2026-01-01T00:00:00.000Z"⟩

/-! ## General lemmas -/

theorem strData_append (a b : String) : (a ++ b).data = a.data ++ b.data := rfl

theorem strAppend_assoc (a b c : String) : a ++ b ++ c = a ++ (b ++ c) := by
  apply String.ext
  simp [strData_append, List.append_assoc]

theorem safeChar_spec (c : Char) :
    safeChar c = true ↔ (c ≠ '[' ∧ c ≠ ']' ∧ c ≠ '(' ∧ c ≠ ')' ∧ c ≠ '!') := by
  simp [safeChar, and_assoc]

theorem safeStr_mem {s : String} (h : safeStr s = true) : ∀ c ∈ s.data, safeChar c = true := by
  simpa [safeStr, List.all_eq_true] using h

theorem safeLit {s : List Char} (h : s.all safeChar = true) :
    ∀ c ∈ s, safeChar c = true :=
  List.all_eq_true.mp h

theorem joinNL_cons (x : String) (l : List String) (h : l ≠ []) :
    joinNL (x :: l) = x ++ "\n" ++ joinNL l := by
  match l with
  | [] => exact absurd rfl h
  | y :: rest => rfl

theorem joinNL_append (l₁ l₂ : List String) (h₁ : l₁ ≠ []) (h₂ : l₂ ≠ []) :
    joinNL (l₁ ++ l₂) = joinNL l₁ ++ "\n" ++ joinNL l₂ := by
  induction l₁ with
  | nil => exact absurd rfl h₁
  | cons x rest ih =>
    cases rest with
    | nil => simpa using joinNL_cons x l₂ h₂
    | cons y rest' =>
      have hne : (y :: rest') ++ l₂ ≠ [] := by simp
      have step : joinNL ((x :: y :: rest') ++ l₂) = x ++ "\n" ++ joinNL ((y :: rest') ++ l₂) := rfl
      rw [step, ih (by simp), joinNL_cons x (y :: rest') (by simp)]
      apply String.ext
      simp [strData_append, List.append_assoc]

theorem joinNL_block (mid : List String) (h : mid ≠ []) :
    joinNL ("---" :: (mid ++ ["---", ""])) = "---\n" ++ joinNL mid ++ "\n---\n" := by
  have h₁ : mid ++ ["---", ""] ≠ [] := by
    cases mid <;> simp
  rw [joinNL_cons _ _ h₁, joinNL_append mid ["---", ""] h (by simp)]
  have : joinNL ["---", ""] = "---\n" := by decide
  rw [this]
  apply String.ext
  simp [strData_append, List.append_assoc]

/-- The single character-level rewriting underlying `escapedExcerpt`. -/
def excerptEsc (c : Char) : List Char :=
  if c = '"' then ['\\', '"'] else if c = '\n' then [' '] else [c]

theorem escapedExcerpt_data (s : String) :
    (escapedExcerpt s).data = s.data.flatMap excerptEsc := by
  show (s.data.flatMap fun c => if c = '"' then ['\\', '"'] else [c]).map
      (fun c => if c = '\n' then ' ' else c) = s.data.flatMap excerptEsc
  induction s.data with
  | nil => rfl
  | cons c cs ih =>
    by_cases hq : c = '"'
    · simp [hq, excerptEsc, ih]
    · by_cases hn : c = '\n'
      · simp [hq, hn, excerptEsc, ih]
      · simp [hq, hn, excerptEsc, ih]

theorem escapedExcerpt_no_newline (s : String) : '\n' ∉ (escapedExcerpt s).data := by
  rw [escapedExcerpt_data]
  intro hmem
  rcases List.mem_flatMap.mp hmem with ⟨d, _, hd⟩
  by_cases hq : d = '"'
  · simp [excerptEsc, hq] at hd
  · by_cases hn : d = '\n'
    · simp [excerptEsc, hq, hn] at hd
    · simp [excerptEsc, hq, hn] at hd
      exact hn hd.symm

theorem flatMap_excerptEsc_guard (l : List Char) :
    ∀ pre post, l.flatMap excerptEsc = pre ++ '"' :: post → ∃ p, pre = p ++ ['\\'] := by
  induction l with
  | nil =>
    intro pre post h
    exact absurd h (by simp)
  | cons c cs ih =>
    intro pre post h
    rw [List.flatMap_cons] at h
    by_cases hq : c = '"'
    · subst hq
      rw [show excerptEsc '"' = ['\\', '"'] from rfl] at h
      simp only [List.cons_append, List.nil_append] at h
      cases pre with
      | nil => simp at h
      | cons a pre' =>
        simp only [List.cons_append] at h
        injection h with ha h2
        cases pre' with
        | nil =>
          exact ⟨[], by simp [← ha]⟩
        | cons b pre'' =>
          simp only [List.cons_append] at h2
          injection h2 with hb h3
          rcases ih pre'' post h3 with ⟨p, hp⟩
          exact ⟨a :: b :: p, by simp [hp]⟩
    · have hc : excerptEsc c = if c = '\n' then [' '] else [c] := by
        simp [excerptEsc, hq]
      rw [hc] at h
      by_cases hn : c = '\n'
      · subst hn
        rw [if_pos rfl] at h
        simp only [List.cons_append, List.nil_append] at h
        cases pre with
        | nil => simp at h
        | cons a pre' =>
          simp only [List.cons_append] at h
          injection h with ha h2
          rcases ih pre' post h2 with ⟨p, hp⟩
          exact ⟨a :: p, by simp [hp]⟩
      · rw [if_neg hn] at h
        simp only [List.cons_append, List.nil_append] at h
        cases pre with
        | nil =>
          rw [List.nil_append] at h
          injection h with ha h2
          exact absurd ha hq
        | cons a pre' =>
          simp only [List.cons_append] at h
          injection h with ha h2
          rcases ih pre' post h2 with ⟨p, hp⟩
          exact ⟨a :: p, by simp [hp]⟩

theorem escapedExcerpt_guard (s : String) :
    ∀ pre post, (escapedExcerpt s).data = pre ++ '"' :: post → ∃ p, pre = p ++ ['\\'] := by
  rw [escapedExcerpt_data]
  exact flatMap_excerptEsc_guard s.data

theorem escapedExcerpt_comm (s : String) : escapedExcerpt s = escQuotes (nlToSpace s) := by
  apply String.ext
  rw [escapedExcerpt_data]
  show s.data.flatMap excerptEsc
      = (s.data.map fun c => if c = '\n' then ' ' else c).flatMap
          fun c => if c = '"' then ['\\', '"'] else [c]
  induction s.data with
  | nil => rfl
  | cons c cs ih =>
    by_cases hq : c = '"'
    · simp [excerptEsc, hq, ih]
    · by_cases hn : c = '\n'
      · simp [excerptEsc, hq, hn, ih]
      · simp [excerptEsc, hq, hn, ih]

theorem noDoubleNl_spec {l : List Char} (h : noDoubleNl l = true) :
    ∀ x y : List Char, l ≠ x ++ '\n' :: '\n' :: y := by
  intro x
  induction x generalizing l with
  | nil =>
    intro y hl
    subst hl
    simp [noDoubleNl] at h
  | cons c x' ih =>
    intro y hl
    subst hl
    cases x' with
    | nil => simp [noDoubleNl] at h
    | cons b rest' =>
      have h2 : noDoubleNl ((b :: rest') ++ '\n' :: '\n' :: y) = true := by
        have h' := h
        simp only [List.cons_append, noDoubleNl, Bool.and_eq_true] at h'
        simpa [noDoubleNl] using h'.2
      exact ih h2 y rfl

/-! ## Atom decompositions and absence of link syntax -/

theorem flattenAtoms_append (l₁ l₂ : List Atom) :
    flattenAtoms (l₁ ++ l₂) = flattenAtoms l₁ ++ flattenAtoms l₂ := by
  induction l₁ with
  | nil => rfl
  | cons a l ih => simp [flattenAtoms, ih, List.append_assoc]

theorem flatten_first {l : List Atom} (hw : ∀ a ∈ l, a.Wf) :
    ∀ {c : Char} {q : List Char}, flattenAtoms l = c :: q →
      safeChar c = true ∨ c = '!' ∨ c = '[' := by
  induction l with
  | nil =>
    intro c q hh
    exact absurd hh (by simp [flattenAtoms])
  | cons a rest ih =>
    intro c q hh
    have hwa : a.Wf := hw a (by simp)
    have hwr : ∀ x ∈ rest, x.Wf := fun x hx => hw x (by simp [hx])
    match a, hwa with
    | .safe s, hwa =>
      match s with
      | [] =>
        have h' : flattenAtoms rest = c :: q := by
          simpa [flattenAtoms, Atom.flat] using hh
        exact ih hwr h'
      | d :: s' =>
        have h' : d :: (s' ++ flattenAtoms rest) = c :: q := by
          simpa [flattenAtoms, Atom.flat] using hh
        injection h' with h1 _
        exact Or.inl (h1 ▸ hwa d (by simp))
    | .img a0 u0, _ =>
      have h' : '!' :: ('[' :: (a0 ++ ']' :: '(' :: (u0 ++ [')'])) ++ flattenAtoms rest)
          = c :: q := by
        simpa [flattenAtoms, Atom.flat] using hh
      injection h' with h1 _
      exact Or.inr (Or.inl h1.symm)
    | .alt a0, _ =>
      have h' : '[' :: ((a0 ++ [']']) ++ flattenAtoms rest) = c :: q := by
        simpa [flattenAtoms, Atom.flat] using hh
      injection h' with h1 _
      exact Or.inr (Or.inr h1.symm)

theorem split_unique {c : Char} :
    ∀ {p x q y : List Char}, p ++ c :: q = x ++ c :: y → c ∉ p → c ∉ x → p = x ∧ q = y := by
  intro p
  induction p with
  | nil =>
    intro x q y h hp hx
    cases x with
    | nil => simpa using h
    | cons a x' =>
      rw [List.nil_append, List.cons_append] at h
      injection h with h1 h2
      exact absurd (by rw [h1]; exact List.mem_cons_self a x') hx
  | cons b p' ih =>
    intro x q y h hp hx
    cases x with
    | nil =>
      rw [List.nil_append, List.cons_append] at h
      injection h with h1 h2
      exact absurd (by rw [← h1]; exact List.mem_cons_self b p') hp
    | cons a x' =>
      simp only [List.cons_append] at h
      injection h with h1 h2
      have hp' : c ∉ p' := fun hm => hp (List.mem_cons_of_mem b hm)
      have hx' : c ∉ x' := fun hm => hx (List.mem_cons_of_mem a hm)
      rcases ih h2 hp' hx' with ⟨hpe, hqe⟩
      exact ⟨by rw [h1, hpe], hqe⟩

theorem split_unique_last {c : Char} :
    ∀ {p x q y : List Char}, p ++ c :: q = x ++ c :: y → c ∉ q → c ∉ y → p = x ∧ q = y := by
  intro p
  induction p with
  | nil =>
    intro x q y h hq hy
    cases x with
    | nil => simpa using h
    | cons a x' =>
      rw [List.nil_append, List.cons_append] at h
      injection h with h1 h2
      exact absurd (by rw [h2]; exact List.mem_append_right x' (List.mem_cons_self c y)) hq
  | cons b p' ih =>
    intro x q y h hq hy
    cases x with
    | nil =>
      rw [List.nil_append, List.cons_append] at h
      injection h with h1 h2
      exact absurd (by rw [← h2]; exact List.mem_append_right p' (List.mem_cons_self c q)) hy
    | cons a x' =>
      simp only [List.cons_append] at h
      injection h with h1 h2
      rcases ih h2 hq hy with ⟨hpe, hqe⟩
      exact ⟨by rw [h1, hpe], hqe⟩

theorem flatten_pair :
    ∀ (l : List Atom), (∀ a ∈ l, a.Wf) →
      ∀ p q : List Char, flattenAtoms l = p ++ ']' :: '(' :: q →
        ∃ p0 a0, p = p0 ++ '!' :: '[' :: a0 ∧ (∀ c ∈ a0, safeChar c = true) := by
  intro l
  induction l with
  | nil =>
    intro _ p q hh
    exact absurd hh (by simp [flattenAtoms])
  | cons a rest ih =>
    intro hw p q hh
    have hwa : a.Wf := hw a (by simp)
    have hwr : ∀ x ∈ rest, x.Wf := fun x hx => hw x (by simp [hx])
    rw [show flattenAtoms (a :: rest) = a.flat ++ flattenAtoms rest from rfl] at hh
    rcases List.append_eq_append_iff.mp hh with ⟨m, hm1, hm2⟩ | ⟨m, hm1, hm2⟩
    · rcases ih hwr m q hm2 with ⟨p0, a0, hp0, ha0⟩
      exact ⟨a.flat ++ p0, a0, by rw [hm1, hp0, List.append_assoc], ha0⟩
    · cases m with
      | nil =>
        rw [List.nil_append] at hm2
        rcases flatten_first hwr hm2.symm with hc | hc | hc
        · exact absurd hc (by decide)
        · exact absurd hc (by decide)
        · exact absurd hc (by decide)
      | cons c1 m' =>
        rw [List.cons_append] at hm2
        injection hm2 with h1 h2
        cases m' with
        | nil =>
          rw [List.nil_append] at h2
          rcases flatten_first hwr h2.symm with hc | hc | hc
          · exact absurd hc (by decide)
          · exact absurd hc (by decide)
          · exact absurd hc (by decide)
        | cons c2 m'' =>
          rw [List.cons_append] at h2
          injection h2 with h3 h4
          subst h1 h3
          match a, hwa with
          | .safe s, hwa =>
            have hmem : ']' ∈ s := by
              show ']' ∈ Atom.flat (.safe s)
              rw [hm1]
              exact List.mem_append_right p (List.mem_cons_self _ _)
            exact absurd (hwa ']' hmem) (by decide)
          | .alt a0, hwa =>
            have hmem : '(' ∈ Atom.flat (.alt a0) := by
              rw [hm1]
              exact List.mem_append_right p
                (List.mem_cons_of_mem _ (List.mem_cons_self _ _))
            rw [show Atom.flat (.alt a0) = '[' :: (a0 ++ [']']) from rfl] at hmem
            rcases List.mem_cons.mp hmem with hc | hc
            · exact absurd hc (by decide)
            · rcases List.mem_append.mp hc with hc' | hc'
              · exact absurd (hwa '(' hc') (by decide)
              · simp at hc'
          | .img a0 u0, hwa =>
            have ha0 : ']' ∉ a0 := fun hm => absurd (hwa.1 ']' hm) (by decide)
            have hu0 : ']' ∉ u0 := fun hm => absurd (hwa.2 ']' hm) (by decide)
            have hflat : Atom.flat (.img a0 u0)
                = ('!' :: '[' :: a0) ++ ']' :: ('(' :: (u0 ++ [')'])) := by
              show '!' :: '[' :: (a0 ++ ']' :: '(' :: (u0 ++ [')']))
                  = ('!' :: '[' :: a0) ++ ']' :: ('(' :: (u0 ++ [')']))
              simp
            rw [hflat] at hm1
            have hm1' : ('!' :: '[' :: a0) ++ ']' :: ('(' :: (u0 ++ [')']))
                = p ++ ']' :: ('(' :: m'') := hm1
            have hcount := congrArg (List.count ']') hm1'
            simp [List.count_cons, List.count_append,
              List.count_eq_zero.mpr ha0, List.count_eq_zero.mpr hu0] at hcount
            have hpnot : ']' ∉ p := List.count_eq_zero.mp (by omega)
            have hxnot : ']' ∉ '!' :: '[' :: a0 := by
              intro hm
              rcases List.mem_cons.mp hm with hc | hc
              · exact absurd hc (by decide)
              · rcases List.mem_cons.mp hc with hc' | hc'
                · exact absurd hc' (by decide)
                · exact ha0 hc'
            rcases split_unique hm1' hxnot hpnot with ⟨hpe, _⟩
            exact ⟨[], a0, by rw [← hpe]; rfl, hwa.1⟩

theorem flatten_noLink (l : List Atom) (hw : ∀ a ∈ l, a.Wf) :
    ¬ hasLinkSyntax (flattenAtoms l) := by
  rintro ⟨pre, t, h, post, heq, ht1, _, hpre⟩
  have heq' : flattenAtoms l = (pre ++ '[' :: t) ++ ']' :: '(' :: (h ++ ')' :: post) := by
    rw [heq]
    simp [List.append_assoc]
  rcases flatten_pair l hw _ _ heq' with ⟨p0, a0, hp, ha0⟩
  have hp' : pre ++ '[' :: t = (p0 ++ ['!']) ++ '[' :: a0 := by
    rw [hp]
    simp [List.append_assoc]
  have ha0' : '[' ∉ a0 := fun hm => absurd (ha0 '[' hm) (by decide)
  rcases split_unique_last hp' ht1 ha0' with ⟨hpe, _⟩
  exact hpre (by rw [hpe]; exact List.getLast?_concat p0)

/-! ## Safety of the converter's fixed output pieces -/

theorem trimChars_subset {c : Char} {l : List Char} (h : c ∈ trimChars l) : c ∈ l := by
  unfold trimChars at h
  rw [List.mem_reverse] at h
  have h1 := (List.dropWhile_sublist (l := (l.dropWhile Char.isWhitespace).reverse)
    Char.isWhitespace).mem h
  rw [List.mem_reverse] at h1
  exact (List.dropWhile_sublist Char.isWhitespace).mem h1

theorem jsTrim_safe {s : String} (h : ∀ c ∈ s.data, safeChar c = true) :
    ∀ c ∈ (jsTrim s).data, safeChar c = true :=
  fun c hc => h c (trimChars_subset hc)

theorem getAttr_safe {attrs : List (String × String)} {k : String} {v : String}
    (ha : ∀ p ∈ attrs, safeStr p.2 = true) (h : getAttr attrs k = some v) :
    ∀ c ∈ v.data, safeChar c = true := by
  induction attrs with
  | nil => exact absurd h (by simp [getAttr])
  | cons p rest ih =>
    rcases p with ⟨pk, pv⟩
    by_cases hk : pk = k
    · rw [show getAttr ((pk, pv) :: rest) k = some pv from by simp [getAttr, hk]] at h
      injection h with h
      exact h ▸ safeStr_mem (ha (pk, pv) (by simp))
    · rw [show getAttr ((pk, pv) :: rest) k = getAttr rest k from by simp [getAttr, hk]] at h
      exact ih (fun q hq => ha q (by simp [hq])) h

theorem getAttrD_safe {attrs : List (String × String)} {k : String}
    (ha : ∀ p ∈ attrs, safeStr p.2 = true) :
    ∀ c ∈ (getAttrD attrs k).data, safeChar c = true := by
  unfold getAttrD
  cases hg : getAttr attrs k with
  | none => simp
  | some v => exact getAttr_safe ha hg

theorem sandwichOf_safe (cfg : Config) (tag : String) (content : String) :
    (∀ c ∈ (sandwichOf cfg tag content).1.data, safeChar c = true)
      ∧ (∀ c ∈ (sandwichOf cfg tag content).2.data, safeChar c = true) := by
  rcases hh : headingLevel tag with _ | lv
  case some =>
    unfold sandwichOf
    rw [hh]
    dsimp only
    by_cases hs : cfg.headingStyle = HeadingStyle.setext ∧ lv ≤ 2
    · rw [if_pos hs]
      dsimp only
      refine ⟨by decide, ?_⟩
      intro c hc
      rw [strData_append, strData_append] at hc
      rcases List.mem_append.mp hc with hc' | hc'
      · rcases List.mem_append.mp hc' with hc'' | hc''
        · exact safeLit (by decide) c hc''
        · rcases List.mem_replicate.mp hc'' with ⟨_, hr⟩
          subst hr
          by_cases h1 : lv = 1
          · rw [if_pos h1]; decide
          · rw [if_neg h1]; decide
      · exact safeLit (by decide) c hc' 
    · rw [if_neg hs]
      dsimp only
      refine ⟨?_, by decide⟩
      intro c hc
      rw [strData_append, strData_append] at hc
      rcases List.mem_append.mp hc with hc' | hc'
      · rcases List.mem_append.mp hc' with hc'' | hc''
        · exact safeLit (by decide) c hc''
        · rcases List.mem_replicate.mp hc'' with ⟨_, hr⟩
          subst hr
          decide
      · exact safeLit (by decide) c hc' 
  case none =>
    unfold sandwichOf
    rw [hh]
    dsimp only
    by_cases h1 : tag = "p"
    · rw [if_pos h1]; exact ⟨by decide, by decide⟩
    · rw [if_neg h1]
      by_cases h2 : tag = "br"
      · rw [if_pos h2]; exact ⟨by decide, by decide⟩
      · rw [if_neg h2]
        by_cases h3 : tag = "hr"
        · rw [if_pos h3]; exact ⟨by decide, by decide⟩
        · rw [if_neg h3]
          by_cases h4 : tag = "em" ∨ tag = "i"
          · rw [if_pos h4]; exact ⟨by decide, by decide⟩
          · rw [if_neg h4]
            by_cases h5 : tag = "strong" ∨ tag = "b"
            · rw [if_pos h5]; exact ⟨by decide, by decide⟩
            · rw [if_neg h5]
              by_cases h6 : tag = "code"
              · rw [if_pos h6]; exact ⟨by decide, by decide⟩
              · rw [if_neg h6]
                by_cases h7 : tag = "blockquote"
                · rw [if_pos h7]; exact ⟨by decide, by decide⟩
                · rw [if_neg h7]; exact ⟨by decide, by decide⟩

theorem codeBlockRule_safe (cfg : Config) {textContent : String}
    (ht : ∀ c ∈ textContent.data, safeChar c = true) :
    ∀ c ∈ (codeBlockRule cfg textContent).data, safeChar c = true := by
  unfold codeBlockRule
  by_cases hf : cfg.codeBlockStyle = CodeStyle.fenced
  · rw [if_pos hf]
    intro c hc
    simp only [strData_append] at hc
    rcases List.mem_append.mp hc with hc' | hc'
    · rcases List.mem_append.mp hc' with hc'' | hc''
      · exact safeLit (by decide) c hc''
      · exact ht c hc''
    · exact safeLit (by decide) c hc' 
  · rw [if_neg hf]
    intro c hc
    simp only [strData_append] at hc
    rcases List.mem_append.mp hc with hc' | hc'
    · rcases List.mem_append.mp hc' with hc'' | hc''
      · exact safeLit (by decide) c hc''
      · rcases List.mem_flatMap.mp hc'' with ⟨d, hd, hcd⟩
        by_cases hn : d = '\n'
        · simp [hn] at hcd
          rcases hcd with h | h <;> subst h <;> decide
        · simp [hn] at hcd
          exact hcd ▸ ht d hd
    · exact safeLit (by decide) c hc' 

mutual
theorem textNode_safe : (t : DomNode) → safeNode t = true →
    ∀ c ∈ (textNode t).data, safeChar c = true
  | .text s, h => safeStr_mem (by simpa [safeNode] using h)
  | .element _ attrs kids, h => by
    have hk : safeForest kids = true := by
      have h' := h
      simp only [safeNode, Bool.and_eq_true] at h'
      exact h'.2
    exact textForest_safe kids hk
theorem textForest_safe : (f : DomForest) → safeForest f = true →
    ∀ c ∈ (textForest f).data, safeChar c = true
  | .nil, _ => by simp [textForest]
  | .cons n f, h => by
    have h' := h
    simp only [safeForest, Bool.and_eq_true] at h'
    intro c hc
    rw [show textForest (.cons n f) = textNode n ++ textForest f from rfl,
      strData_append] at hc
    rcases List.mem_append.mp hc with hc' | hc'
    · exact textNode_safe n h'.1 c hc'
    · exact textForest_safe f h'.2 c hc'
end

/-! ## Decomposition of converter output into atoms -/

theorem decomp_safe (s : String) (h : ∀ c ∈ s.data, safeChar c = true) : Decomp s :=
  ⟨[.safe s.data], by simpa [Atom.Wf] using h, by simp [flattenAtoms, Atom.flat]⟩

theorem decomp_append {a b : String} (ha : Decomp a) (hb : Decomp b) : Decomp (a ++ b) := by
  rcases ha with ⟨l₁, hw₁, hd₁⟩
  rcases hb with ⟨l₂, hw₂, hd₂⟩
  refine ⟨l₁ ++ l₂, ?_, ?_⟩
  · intro x hx
    rcases List.mem_append.mp hx with hx' | hx'
    · exact hw₁ x hx'
    · exact hw₂ x hx'
  · rw [strData_append, hd₁, hd₂, flattenAtoms_append]

theorem decomp_imageAltTextRule {attrs : List (String × String)}
    (ha : ∀ p ∈ attrs, safeStr p.2 = true) : Decomp (imageAltTextRule attrs) := by
  unfold imageAltTextRule
  cases hg : getAttr attrs "alt" with
  | none =>
    exact ⟨[.alt "画像".data], by simp [Atom.Wf]; decide, by decide⟩
  | some alt =>
    dsimp only
    by_cases hcond : alt ≠ "" ∧ jsTrim alt ≠ ""
    · rw [if_pos hcond]
      refine ⟨[.alt ("画像: " ++ jsTrim alt).data], ?_, ?_⟩
      · intro x hx
        rcases List.mem_singleton.mp hx with rfl
        intro c hc
        rw [strData_append] at hc
        rcases List.mem_append.mp hc with hc' | hc'
        · exact safeLit (by decide) c hc'
        · exact jsTrim_safe (getAttr_safe ha hg) c hc'
      · show ("[画像: " ++ jsTrim alt ++ "]").data
          = ('[' :: (("画像: " ++ jsTrim alt).data ++ [']'])) ++ []
        simp [strData_append]
    · rw [if_neg hcond]
      exact ⟨[.alt "画像".data], by simp [Atom.Wf]; decide, by decide⟩

theorem decomp_imgDefault {attrs : List (String × String)}
    (ha : ∀ p ∈ attrs, safeStr p.2 = true) :
    Decomp ("![" ++ getAttrD attrs "alt" ++ "](" ++ getAttrD attrs "src" ++ ")") := by
  refine ⟨[.img (getAttrD attrs "alt").data (getAttrD attrs "src").data], ?_, ?_⟩
  · intro x hx
    rcases List.mem_singleton.mp hx with rfl
    exact ⟨getAttrD_safe ha, getAttrD_safe ha⟩
  · show ("![" ++ getAttrD attrs "alt" ++ "](" ++ getAttrD attrs "src" ++ ")").data
      = ('!' :: '[' :: ((getAttrD attrs "alt").data
          ++ ']' :: '(' :: ((getAttrD attrs "src").data ++ [')']))) ++ []
    simp [strData_append]

theorem elementRule_decomp (cfg : Config) (hl : cfg.includeLinks = false)
    (tag : String) (attrs : List (String × String)) (content textContent : String)
    (hc : Decomp content)
    (ht : ∀ c ∈ textContent.data, safeChar c = true)
    (ha : ∀ p ∈ attrs, safeStr p.2 = true) :
    Decomp (elementRule cfg tag attrs content textContent) := by
  unfold elementRule
  by_cases h1 : tag = "a" ∧ cfg.includeLinks = false
  · rw [if_pos h1]
    exact hc
  · rw [if_neg h1]
    by_cases h2 : tag = "img" ∧ cfg.imageHandling = ImageHandling.remove
    · rw [if_pos h2]
      exact decomp_safe "" (by simp)
    · rw [if_neg h2]
      by_cases h3 : tag = "img" ∧ cfg.imageHandling = ImageHandling.altText
      · rw [if_pos h3]
        exact decomp_imageAltTextRule ha
      · rw [if_neg h3]
        by_cases h4 : tag = "a"
        · exact absurd ⟨h4, hl⟩ h1
        · rw [if_neg h4]
          by_cases h5 : tag = "img"
          · rw [if_pos h5]
            exact decomp_imgDefault ha
          · rw [if_neg h5]
            by_cases h6 : tag = "pre"
            · rw [if_pos h6]
              exact decomp_safe _ (codeBlockRule_safe cfg ht)
            · rw [if_neg h6]
              exact decomp_append
                (decomp_append (decomp_safe _ (sandwichOf_safe cfg tag content).1) hc)
                (decomp_safe _ (sandwichOf_safe cfg tag content).2)

mutual
theorem decompNode (cfg : Config) (hl : cfg.includeLinks = false) :
    (t : DomNode) → safeNode t = true → Decomp (convertNode cfg t)
  | .text s, h => decomp_safe s (safeStr_mem (by simpa [safeNode] using h))
  | .element tag attrs kids, h => by
    have h' := h
    simp only [safeNode, Bool.and_eq_true, List.all_eq_true] at h'
    exact elementRule_decomp cfg hl tag attrs _ _
      (decompForest cfg hl kids h'.2)
      (textForest_safe kids h'.2)
      (fun p hp => h'.1 p hp)
theorem decompForest (cfg : Config) (hl : cfg.includeLinks = false) :
    (f : DomForest) → safeForest f = true → Decomp (convertForest cfg f)
  | .nil, _ => decomp_safe "" (by simp)
  | .cons n f, h => by
    have h' := h
    simp only [safeForest, Bool.and_eq_true] at h'
    exact decomp_append (decompNode cfg hl n h'.1) (decompForest cfg hl f h'.2)
end

/-! ## No image markers under image removal -/

theorem elementRule_noBang (cfg : Config) (hrem : cfg.imageHandling = ImageHandling.remove)
    (tag : String) (attrs : List (String × String)) (content textContent : String)
    (hc : '!' ∉ content.data)
    (ht : ∀ c ∈ textContent.data, safeChar c = true)
    (ha : ∀ p ∈ attrs, safeStr p.2 = true) :
    '!' ∉ (elementRule cfg tag attrs content textContent).data := by
  unfold elementRule
  by_cases h1 : tag = "a" ∧ cfg.includeLinks = false
  · rw [if_pos h1]
    exact hc
  · rw [if_neg h1]
    by_cases h2 : tag = "img" ∧ cfg.imageHandling = ImageHandling.remove
    · rw [if_pos h2]
      simp
    · rw [if_neg h2]
      by_cases h3 : tag = "img" ∧ cfg.imageHandling = ImageHandling.altText
      · exact absurd (hrem.symm.trans h3.2) (by decide)
      · rw [if_neg h3]
        by_cases h4 : tag = "a"
        · rw [if_pos h4]
          intro hm
          simp only [strData_append] at hm
          rcases List.mem_append.mp hm with hA | hA
          · rcases List.mem_append.mp hA with hB | hB
            · rcases List.mem_append.mp hB with hC | hC
              · rcases List.mem_append.mp hC with hD | hD
                · exact absurd hD (by decide)
                · exact hc hD
              · exact absurd hC (by decide)
            · exact absurd (getAttrD_safe ha '!' hB) (by decide)
          · exact absurd hA (by decide)
        · rw [if_neg h4]
          by_cases h5 : tag = "img"
          · exact absurd ⟨h5, hrem⟩ h2
          · rw [if_neg h5]
            by_cases h6 : tag = "pre"
            · rw [if_pos h6]
              intro hm
              exact absurd (codeBlockRule_safe cfg ht '!' hm) (by decide)
            · rw [if_neg h6]
              intro hm
              simp only [strData_append] at hm
              rcases List.mem_append.mp hm with hA | hA
              · rcases List.mem_append.mp hA with hB | hB
                · exact absurd ((sandwichOf_safe cfg tag content).1 '!' hB) (by decide)
                · exact hc hB
              · exact absurd ((sandwichOf_safe cfg tag content).2 '!' hA) (by decide)

mutual
theorem noBangNode (cfg : Config) (hrem : cfg.imageHandling = ImageHandling.remove) :
    (t : DomNode) → safeNode t = true → '!' ∉ (convertNode cfg t).data
  | .text s, h => fun hm =>
    absurd (safeStr_mem (by simpa [safeNode] using h) '!' hm) (by decide)
  | .element tag attrs kids, h => by
    have h' := h
    simp only [safeNode, Bool.and_eq_true, List.all_eq_true] at h'
    exact elementRule_noBang cfg hrem tag attrs _ _
      (noBangForest cfg hrem kids h'.2) (textForest_safe kids h'.2) (fun p hp => h'.1 p hp)
theorem noBangForest (cfg : Config) (hrem : cfg.imageHandling = ImageHandling.remove) :
    (f : DomForest) → safeForest f = true → '!' ∉ (convertForest cfg f).data
  | .nil, _ => by simp [convertForest]
  | .cons n f, h => by
    have h' := h
    simp only [safeForest, Bool.and_eq_true] at h'
    intro hm
    rw [show convertForest cfg (.cons n f) = convertNode cfg n ++ convertForest cfg f from rfl,
      strData_append] at hm
    rcases List.mem_append.mp hm with hm' | hm'
    · exact noBangNode cfg hrem n h'.1 hm'
    · exact noBangForest cfg hrem f h'.2 hm'
end

/-! ## Conversion output never reads `src` under alt-text handling -/

theorem mapSrcAttrs_getAttr {g : String → String} {attrs : List (String × String)}
    {k : String} (hk : k ≠ "src") :
    getAttr (mapSrcAttrs g attrs) k = getAttr attrs k := by
  induction attrs with
  | nil => rfl
  | cons p rest ih =>
    rcases p with ⟨pk, pv⟩
    by_cases hpk : pk = k
    · subst hpk
      simp [mapSrcAttrs, getAttr, hk]
    · simp [mapSrcAttrs, getAttr, hpk, ih]

mutual
theorem textNode_mapSrc (g : String → String) :
    (t : DomNode) → textNode (mapSrcNode g t) = textNode t
  | .text _ => rfl
  | .element tag attrs kids => by
    show textForest (mapSrcForest g kids) = textForest kids
    exact textForest_mapSrc g kids
theorem textForest_mapSrc (g : String → String) :
    (f : DomForest) → textForest (mapSrcForest g f) = textForest f
  | .nil => rfl
  | .cons n f => by
    show textNode (mapSrcNode g n) ++ textForest (mapSrcForest g f)
        = textNode n ++ textForest f
    rw [textNode_mapSrc g n, textForest_mapSrc g f]
end

mutual
theorem convert_mapSrcNode (cfg : Config) (halt : cfg.imageHandling = ImageHandling.altText)
    (g : String → String) :
    (t : DomNode) → convertNode cfg (mapSrcNode g t) = convertNode cfg t
  | .text _ => rfl
  | .element tag attrs kids => by
    have hkids := convert_mapSrcForest cfg halt g kids
    have htext := textForest_mapSrc g kids
    show elementRule cfg tag (if tag = "img" then mapSrcAttrs g attrs else attrs)
        (convertForest cfg (mapSrcForest g kids)) (textForest (mapSrcForest g kids))
      = elementRule cfg tag attrs (convertForest cfg kids) (textForest kids)
    rw [hkids, htext]
    by_cases himg : tag = "img"
    · rw [if_pos himg]
      subst himg
      have hc1 : ¬("img" = "a" ∧ cfg.includeLinks = false) := by
        rintro ⟨hx, _⟩
        exact absurd hx (by decide)
      have hc2 : ¬("img" = "img" ∧ cfg.imageHandling = ImageHandling.remove) := by
        rintro ⟨_, hr⟩
        exact absurd (halt.symm.trans hr) (by decide)
      have hc3 : "img" = "img" ∧ cfg.imageHandling = ImageHandling.altText := ⟨rfl, halt⟩
      unfold elementRule
      rw [if_neg hc1, if_neg hc1, if_neg hc2, if_neg hc2, if_pos hc3, if_pos hc3]
      unfold imageAltTextRule
      rw [mapSrcAttrs_getAttr (show "alt" ≠ "src" by decide)]
    · rw [if_neg himg]
theorem convert_mapSrcForest (cfg : Config) (halt : cfg.imageHandling = ImageHandling.altText)
    (g : String → String) :
    (f : DomForest) → convertForest cfg (mapSrcForest g f) = convertForest cfg f
  | .nil => rfl
  | .cons n f => by
    show convertNode cfg (mapSrcNode g n) ++ convertForest cfg (mapSrcForest g f)
        = convertNode cfg n ++ convertForest cfg f
    rw [convert_mapSrcNode cfg halt g n, convert_mapSrcForest cfg halt g f]
end

/-! ## Claim theorems -/

/-- Claim C1, as stated, is false: the claim asserts the frontmatter block
is separated from the Markdown body by exactly one blank line, but the
composed output places the body on the line immediately after the closing
delimiter.  At a concrete article the whole output contains no two
adjacent newlines at all, so no blank line separates anything. -/
theorem C1_counterexample :
    composeMarkdown true artMin "https://e/" "D" "Hello"
      = "---\nurl: \"https://e/\"\ndate: \"D\"\n---\nHello"
    ∧ ¬ ∃ x y : String, composeMarkdown true artMin "https://e/" "D" "Hello"
        = x ++ "\n\n" ++ y := by
  refine ⟨by decide, ?_⟩
  rintro ⟨x, y, hxy⟩
  have hd : (composeMarkdown true artMin "https://e/" "D" "Hello").data
      = x.data ++ '\n' :: '\n' :: y.data := by
    rw [hxy]
    simp [strData_append]
  have hnd : noDoubleNl (composeMarkdown true artMin "https://e/" "D" "Hello").data
      = true := by decide
  exact noDoubleNl_spec hnd x.data y.data hd

/-- Claim C1 (amended): with `includeFrontmatter = true` the returned
string begins with a `---` line, contains a `url:` line whose value is
the final resolved URL, has a closing `---` line before the Markdown
body, and the body follows the closing delimiter after a single newline
(no blank line in between). -/
theorem C1_frontmatter_structure (art : Article) (finalUrl now body : String) :
    ∃ mid : List String,
      composeMarkdown true art finalUrl now body
        = "---\n" ++ joinNL mid ++ "\n---\n" ++ body
      ∧ ("url: \"" ++ finalUrl ++ "\"") ∈ mid := by
  refine ⟨fmField "title" art.title ++ ["url: \"" ++ finalUrl ++ "\""]
    ++ fmField "author" art.byline ++ fmField "site" art.siteName
    ++ fmExcerpt art.excerpt ++ ["date: \"" ++ now ++ "\""], ?_, by simp⟩
  have hlines : frontmatterLines art finalUrl now
      = "---" :: ((fmField "title" art.title ++ ["url: \"" ++ finalUrl ++ "\""]
        ++ fmField "author" art.byline ++ fmField "site" art.siteName
        ++ fmExcerpt art.excerpt ++ ["date: \"" ++ now ++ "\""]) ++ ["---", ""]) := by
    simp [frontmatterLines, List.append_assoc]
  have hne : fmField "title" art.title ++ ["url: \"" ++ finalUrl ++ "\""]
      ++ fmField "author" art.byline ++ fmField "site" art.siteName
      ++ fmExcerpt art.excerpt ++ ["date: \"" ++ now ++ "\""] ≠ [] := by
    apply List.ne_nil_of_mem (a := "url: \"" ++ finalUrl ++ "\"")
    simp
  show joinNL (frontmatterLines art finalUrl now) ++ body = _
  rw [hlines, joinNL_block _ hne]

/-- Claim C2: with `includeLinks = false`, a link element converts to
exactly the conversion of its children (its visible text), discarding
`href` and `title`, and for every tree whose text and attribute values
avoid bracket, parenthesis and exclamation characters the conversion
output contains no `[text](href)` link syntax. -/
theorem C2_links_removed (cfg : Config) (hl : cfg.includeLinks = false) :
    (∀ attrs kids, convertNode cfg (.element "a" attrs kids) = convertForest cfg kids)
    ∧ (∀ t, safeNode t = true → ¬ hasLinkSyntax (convertNode cfg t).data) := by
  constructor
  · intro attrs kids
    show elementRule cfg "a" attrs (convertForest cfg kids) (textForest kids)
        = convertForest cfg kids
    unfold elementRule
    rw [if_pos ⟨rfl, hl⟩]
  · intro t hsafe
    rcases decompNode cfg hl t hsafe with ⟨l, hw, hd⟩
    rw [hd]
    exact flatten_noLink l hw

theorem C2_witness :
    convertNode cfgNoLinks (.element "a" [("href", "https://x"), ("title", "t")]
        (.cons (.text "world") .nil))
      = convertForest cfgNoLinks (.cons (.text "world") .nil)
    ∧ ¬ hasLinkSyntax (convertNode cfgNoLinks demoTree).data :=
  ⟨(C2_links_removed cfgNoLinks rfl).1 _ _,
   (C2_links_removed cfgNoLinks rfl).2 demoTree (by decide)⟩

/-- Claim C3: with `imageHandling = remove` every image element converts
to the empty string and (for trees with safe leaves) the output contains
no `![` image marker; with `imageHandling = altText` the output never
depends on any image's `src` attribute, and each image becomes the
bracketed alt-text placeholder when its `alt` is truthy and
non-whitespace, else the unlabeled placeholder. -/
theorem C3_image_handling (cfg : Config) :
    (cfg.imageHandling = ImageHandling.remove →
      ∀ attrs kids, convertNode cfg (.element "img" attrs kids) = "")
    ∧ (cfg.imageHandling = ImageHandling.remove →
      ∀ t, safeNode t = true →
        ∀ x y : List Char, (convertNode cfg t).data ≠ x ++ '!' :: '[' :: y)
    ∧ (cfg.imageHandling = ImageHandling.altText →
      ∀ g t, convertNode cfg (mapSrcNode g t) = convertNode cfg t)
    ∧ (cfg.imageHandling = ImageHandling.altText →
      ∀ attrs kids,
        (∀ a, getAttr attrs "alt" = some a → a ≠ "" → jsTrim a ≠ "" →
          convertNode cfg (.element "img" attrs kids) = "[画像: " ++ jsTrim a ++ "]")
        ∧ (∀ a, getAttr attrs "alt" = some a → ¬(a ≠ "" ∧ jsTrim a ≠ "") →
          convertNode cfg (.element "img" attrs kids) = "[画像]")
        ∧ (getAttr attrs "alt" = none →
          convertNode cfg (.element "img" attrs kids) = "[画像]")) := by
  have hc1 : ∀ cfg' : Config, ¬("img" = "a" ∧ cfg'.includeLinks = false) := by
    rintro cfg' ⟨hx, _⟩
    exact absurd hx (by decide)
  refine ⟨?_, ?_, ?_, ?_⟩
  · intro hrem attrs kids
    show elementRule cfg "img" attrs (convertForest cfg kids) (textForest kids) = ""
    unfold elementRule
    rw [if_neg (hc1 cfg), if_pos ⟨rfl, hrem⟩]
  · intro hrem t hsafe x y he
    apply noBangNode cfg hrem t hsafe
    rw [he]
    exact List.mem_append_right x (List.mem_cons_self _ _)
  · intro halt g t
    exact convert_mapSrcNode cfg halt g t
  · intro halt attrs kids
    have hconv : convertNode cfg (.element "img" attrs kids) = imageAltTextRule attrs := by
      show elementRule cfg "img" attrs (convertForest cfg kids) (textForest kids)
          = imageAltTextRule attrs
      unfold elementRule
      have hrem : ¬("img" = "img" ∧ cfg.imageHandling = ImageHandling.remove) := by
        rintro ⟨_, hr⟩
        exact absurd (halt.symm.trans hr) (by decide)
      rw [if_neg (hc1 cfg), if_neg hrem, if_pos ⟨rfl, halt⟩]
    refine ⟨?_, ?_, ?_⟩
    · intro a hg ha1 ha2
      rw [hconv]
      unfold imageAltTextRule
      rw [hg]
      exact if_pos ⟨ha1, ha2⟩
    · intro a hg hna
      rw [hconv]
      unfold imageAltTextRule
      rw [hg]
      exact if_neg hna
    · intro hg
      rw [hconv]
      unfold imageAltTextRule
      rw [hg]

theorem C3_witness :
    convertNode cfgRemoveImages (.element "img" imgAttrs .nil) = ""
    ∧ (convertNode cfgRemoveImages demoTree).data ≠ [] ++ '!' :: '[' :: []
    ∧ convertNode cfgAltText (mapSrcNode (fun _ => "CHANGED") demoTree)
      = convertNode cfgAltText demoTree
    ∧ convertNode cfgAltText (.element "img" imgAttrs .nil) = "[画像: " ++ jsTrim "pic" ++ "]" :=
  ⟨(C3_image_handling cfgRemoveImages).1 rfl _ _,
   (C3_image_handling cfgRemoveImages).2.1 rfl demoTree (by decide) [] [],
   (C3_image_handling cfgAltText).2.2.1 rfl _ demoTree,
   ((C3_image_handling cfgAltText).2.2.2 rfl imgAttrs .nil).1 "pic" rfl (by decide) (by decide)⟩

/-- Claim C4, as stated, is false: it asserts every frontmatter string
field has embedded double quotes escaped, but the `url:` field is
emitted with the raw resolved URL; a final URL containing a quote
appears unescaped. -/
theorem C4_counterexample :
    ("url: \"u\"v\"" ∈ frontmatterLines artMin "u\"v" "D")
    ∧ ("url: \"u\\\"v\"" ∉ frontmatterLines artMin "u\"v" "D")
    ∧ escQuotes "u\"v" = "u\\\"v" :=
  ⟨by decide, by decide, by decide⟩

/-- Claim C4 (amended): for the title, author, site and excerpt fields,
embedded double quotes are escaped as backslash-quote (the url and date
values are emitted verbatim inside their quotes); the excerpt
additionally has newlines collapsed to single spaces — equivalently
before or after the quote-escaping, the two maps commute — so the
emitted excerpt value contains no newline and every double quote in it
is preceded by a backslash. -/
theorem C4_field_escaping (e : String) (art : Article) (finalUrl now : String) :
    '\n' ∉ (escapedExcerpt e).data
    ∧ (∀ pre post, (escapedExcerpt e).data = pre ++ '"' :: post → ∃ p, pre = p ++ ['\\'])
    ∧ escapedExcerpt e = escQuotes (nlToSpace e)
    ∧ (∀ s, art.title = some s → s ≠ "" →
        ("title: \"" ++ escQuotes s ++ "\"") ∈ frontmatterLines art finalUrl now)
    ∧ (∀ s, art.byline = some s → s ≠ "" →
        ("author: \"" ++ escQuotes s ++ "\"") ∈ frontmatterLines art finalUrl now)
    ∧ (∀ s, art.siteName = some s → s ≠ "" →
        ("site: \"" ++ escQuotes s ++ "\"") ∈ frontmatterLines art finalUrl now)
    ∧ (art.excerpt = some e → e ≠ "" →
        ("excerpt: \"" ++ escapedExcerpt e ++ "\"") ∈ frontmatterLines art finalUrl now)
    ∧ ("url: \"" ++ finalUrl ++ "\"") ∈ frontmatterLines art finalUrl now := by
  refine ⟨escapedExcerpt_no_newline e, escapedExcerpt_guard e, escapedExcerpt_comm e,
    ?_, ?_, ?_, ?_, ?_⟩
  · intro s hs hne
    simp [frontmatterLines, fmField, hs, hne]
  · intro s hs hne
    simp [frontmatterLines, fmField, hs, hne]
  · intro s hs hne
    simp [frontmatterLines, fmField, hs, hne]
  · intro hs hne
    simp [frontmatterLines, fmExcerpt, hs, hne]
  · simp [frontmatterLines]

theorem C4_witness :
    '\n' ∉ (escapedExcerpt "Line one\nwith a \"q\"").data
    ∧ ("title: \"" ++ escQuotes "A \"quoted\" title" ++ "\"")
        ∈ frontmatterLines artFull "u" "D"
    ∧ ("excerpt: \"" ++ escapedExcerpt "Line one\nwith a \"q\"" ++ "\"")
        ∈ frontmatterLines artFull "u" "D"
    ∧ ("url: \"" ++ "u" ++ "\"") ∈ frontmatterLines artFull "u" "D" := by
  have h := C4_field_escaping "Line one\nwith a \"q\"" artFull "u" "D"
  exact ⟨h.1, h.2.2.2.1 _ rfl (by decide), h.2.2.2.2.2.2.1 rfl (by decide),
    h.2.2.2.2.2.2.2⟩

/-- Claim C5, as stated, is false: on markup the readability heuristic
cannot parse (such as an empty body) the pipeline does fail with an
extraction error, but its user-visible message is the source's
`Failed to parse article content from the page`, not the claimed
plain description `no readable content found`. -/
theorem C5_counterexample :
    processItem (some "https://req.example/e") {} fetchEmptyBodyOracle parseOracle "D"
      = .error (.extraction "Failed to parse article content from the page")
    ∧ "Failed to parse article content from the page" ≠ "no readable content found" :=
  ⟨rfl, by decide⟩

/-- Claim C5 (amended): whenever the extraction oracle can isolate no
article from the fetched markup (for example markup with an empty body),
the pipeline fails with an ExtractionError whose user-visible message is
`Failed to parse article content from the page`. -/
theorem C5_extraction_failure (url : String) (opts : RawOptions)
    (fetch : Nat → FetchResult) (parse : String → String → Option Article)
    (now statusText body finalUrl : String) (status : Nat) :
    url ≠ "" → fetch (effTimeout opts) = .success status statusText body finalUrl →
    statusOk status = true → parse body finalUrl = none →
    processItem (some url) opts fetch parse now
      = .error (.extraction "Failed to parse article content from the page") := by
  intro hu hf hs hp
  simp [processItem, hu, hf, hs, hp]

theorem C5_witness :
    processItem (some "https://w.example/e") {} fetchEmptyBodyOracle parseOracle "W"
      = .error (.extraction "Failed to parse article content from the page") :=
  C5_extraction_failure "https://w.example/e" {} fetchEmptyBodyOracle parseOracle "W"
    "OK" "<html><body></body></html>" "https://final.example/empty" 200
    (by decide) rfl (by decide) rfl

/-- Claim C6: when the fetch is aborted by the timeout timer, the error
message carries the configured (truthy) number of seconds as supplied by
the caller, independently of the milliseconds actually elapsed. -/
theorem C6_timeout_carries_configured (url : String) (opts : RawOptions)
    (fetch : Nat → FetchResult) (parse : String → String → Option Article)
    (now : String) (t elapsed : Nat) :
    url ≠ "" → opts.timeout = some t → t ≠ 0 → fetch t = .abort elapsed →
    processItem (some url) opts fetch parse now
      = .error (.timedOut ("Request timed out after " ++ toString t ++ " seconds")) := by
  intro hu ht ht0 hf
  have he : effTimeout opts = t := by simp [effTimeout, ht, ht0]
  simp [processItem, hu, he, hf]

theorem C6_witness :
    processItem (some "https://req.example/b") opts45 fetchAbortOracle parseOracle "D"
      = .error (.timedOut ("Request timed out after " ++ toString 45 ++ " seconds")) :=
  C6_timeout_carries_configured "https://req.example/b" opts45 fetchAbortOracle
    parseOracle "D" 45 999 (by decide) rfl (by decide) rfl

/-- Claim C7: a missing or empty URL parameter makes the item fail with
the `URL is required` validation error, for every fetch and parse oracle
whatsoever — in particular the result never depends on the fetch, which
is therefore never attempted. -/
theorem C7_validation_no_fetch (url : Option String) (opts : RawOptions)
    (fetch : Nat → FetchResult) (parse : String → String → Option Article) (now : String) :
    url = none ∨ url = some "" →
    processItem url opts fetch parse now = .error (.validation "URL is required") := by
  rintro (rfl | rfl) <;> simp [processItem]

theorem C7_witness :
    processItem none {} fetchOkOracle parseOracle "D"
      = .error (.validation "URL is required")
    ∧ processItem (some "") {} fetchAbortOracle parseOracle "D"
      = .error (.validation "URL is required") :=
  ⟨C7_validation_no_fetch none {} fetchOkOracle parseOracle "D" (Or.inl rfl),
   C7_validation_no_fetch (some "") {} fetchAbortOracle parseOracle "D" (Or.inr rfl)⟩

/-- Claim C8: with continue-on-fail enabled, every item of the batch
yields exactly its own outcome — a success record, or an error-message
record substituted in its place — and processing always reaches the end
of the batch; with the mode disabled, the first failing item aborts the
whole batch with that item's error. -/
theorem C8_batch_modes :
    (∀ items : List ItemInput, runBatch items true = .ok (items.map itemOutcome))
    ∧ (∀ (pre : List ItemInput) (it : ItemInput) (post : List ItemInput) (e : PipeError),
        (∀ j ∈ pre, ∃ r, runOne j = .ok r) → runOne it = .error e →
        runBatch (pre ++ it :: post) false = .error e) := by
  constructor
  · intro items
    induction items with
    | nil => rfl
    | cons it rest ih =>
      cases hr : runOne it with
      | ok r => simp [runBatch, hr, ih, itemOutcome, Except.map]
      | error e => simp [runBatch, hr, ih, itemOutcome, Except.map]
  · intro pre it post e
    induction pre with
    | nil =>
      intro _ hit
      simp [runBatch, hit]
    | cons j pre' ih =>
      intro hpre hit
      rcases hpre j (by simp) with ⟨r, hr⟩
      have hrec := ih (fun x hx => hpre x (by simp [hx])) hit
      simp [runBatch, hr, hrec, Except.map]

theorem C8_witness :
    runBatch [itemGood, itemBad, itemGood] true
      = .ok ([itemGood, itemBad, itemGood].map itemOutcome)
    ∧ runBatch [itemGood, itemBad] false
      = .error (.timedOut ("Request timed out after " ++ toString 45 ++ " seconds")) := by
  refine ⟨C8_batch_modes.1 _, ?_⟩
  apply C8_batch_modes.2 [itemGood] itemBad [] _ ?_ rfl
  intro j hj
  rw [List.mem_singleton] at hj
  subst hj
  exact ⟨_, rfl⟩

/-- Claim C9: an absent or zero (falsy) timeout option behaves exactly
like a configured timeout of 30 seconds — the effective timeout handed
to the fetch is 30, and the whole item result coincides with the result
under `timeout = 30`; a supplied 0 is silently replaced, not an
immediate timeout. -/
theorem C9_timeout_default (url : Option String) (opts : RawOptions)
    (fetch : Nat → FetchResult) (parse : String → String → Option Article) (now : String) :
    opts.timeout = none ∨ opts.timeout = some 0 →
    effTimeout opts = 30
    ∧ processItem url opts fetch parse now
      = processItem url { opts with timeout := some 30 } fetch parse now := by
  intro h
  have he : effTimeout opts = 30 := by
    rcases h with h | h <;> simp [effTimeout, h]
  have he' : effTimeout { opts with timeout := some 30 } = 30 := by
    simp [effTimeout]
  refine ⟨he, ?_⟩
  unfold processItem
  rw [he, he']
  rfl

theorem C9_witness :
    effTimeout optsZero = 30
    ∧ processItem (some "https://req.example/a") optsZero fetchOkOracle parseOracle "D"
      = processItem (some "https://req.example/a") { optsZero with timeout := some 30 }
          fetchOkOracle parseOracle "D" :=
  C9_timeout_default (some "https://req.example/a") optsZero fetchOkOracle parseOracle "D"
    (Or.inr rfl)

/-- Claim C10: every successful item result records the final
post-redirect URL reported by the fetch as its `url`, its
`contentLength` equals the length of the `markdown` string stored in the
same record, and that string is the composed output — including the
frontmatter block when frontmatter is enabled. -/
theorem C10_success_record (url : String) (opts : RawOptions)
    (fetch : Nat → FetchResult) (parse : String → String → Option Article)
    (now statusText body finalUrl : String) (status : Nat) (art : Article) :
    url ≠ "" → fetch (effTimeout opts) = .success status statusText body finalUrl →
    statusOk status = true → parse body finalUrl = some art →
    ∃ r : OutItem,
      processItem (some url) opts fetch parse now = .ok r
      ∧ r.url = finalUrl
      ∧ r.contentLength = r.markdown.length
      ∧ r.markdown = composeMarkdown (effIncludeFrontmatter opts) art finalUrl now
          (convertNode (effConfig opts) art.content) := by
  intro hu hf hs hp
  refine ⟨⟨finalUrl, art.title, art.byline, art.excerpt, art.siteName,
    composeMarkdown (effIncludeFrontmatter opts) art finalUrl now
      (convertNode (effConfig opts) art.content),
    (composeMarkdown (effIncludeFrontmatter opts) art finalUrl now
      (convertNode (effConfig opts) art.content)).length⟩, ?_, rfl, rfl, rfl⟩
  simp [processItem, hu, hf, hs, hp]

theorem C10_witness :
    (∃ r : OutItem,
      processItem (some "https://req.example/a") optsFm fetchOkOracle parseOracle "D" = .ok r
      ∧ r.url = "https://final.example/post"
      ∧ r.contentLength = r.markdown.length
      ∧ r.markdown = composeMarkdown (effIncludeFrontmatter optsFm) artT
          "https://final.example/post" "D" (convertNode (effConfig optsFm) artT.content))
    ∧ "https://final.example/post" ≠ "https://req.example/a" :=
  ⟨C10_success_record "https://req.example/a" optsFm fetchOkOracle parseOracle "D"
    "OK" "<html><body><p>Hi</p></body></html>" "https://final.example/post" 200 artT
    (by decide) rfl (by decide) rfl,
   by decide⟩

end UrlToMarkdown
